import Mathlib

/-!
# MsPacman game adapter (`src/ale/games/supported/MsPacman.cpp`)

A shallow embedding of `ale::MsPacmanSettings`: the per-frame `step`, `reset`,
the `saveState` / `loadState` pair, `isMinimal`, `getAvailableModes` and
`setMode`, followed by theorems about them.

The C++ members are `int` (and one `bool`) and are embedded as `Int`.  The only
arithmetic is that of `step` on `m_reward`, which starts from 0 in every call;
`m_prevPelletsCleared` is written by `reset` and `step` only, hence lies in
`[0, 1024]` in every state the adapter can be in, and then every value `step`
computes lies in `[-10, 1045]` (`step_reward_bounds`), far from the limits of a
32-bit `int`.
-/

namespace ale

/-! ## The emulator's memory, as seen through `readRam` -/

/-- Modelled from the spec: the host's read-only memory-snapshot accessor
(`System`, declared outside this file's source): given a byte offset it returns
the byte currently resident there. -/
structure System where
  peek : Nat → Nat

/-- Modelled from the spec: `readRam(&system, offset)` of `RomUtils.hpp`, which is
not part of the source at hand; it returns the byte at `offset`, a value in
`0..255`. -/
def readRam (system : System) (offset : Nat) : Nat :=
  system.peek offset % 256

/-! ## Adapter state -/

/-- The data members of `MsPacmanSettings` assigned in `MsPacman.cpp`. -/
structure MsPacmanSettings where
  m_reward : Int
  m_score : Int
  m_terminal : Bool
  m_lives : Int
  m_prev_lives : Int
  m_prevPelletsCleared : Int
  deriving DecidableEq, Repr

namespace MsPacmanSettings

/-- The loop `for (int addr = 0x4000; addr <= 0x43FF; addr++)` of `step`, with
`n` iterations still to run, the loop variable at `addr`, and the running value
of `pelletsCleared`. -/
def pelletLoop (system : System) : Nat → Nat → Int → Int
  | 0, _, pelletsCleared => pelletsCleared
  | n + 1, addr, pelletsCleared =>
      pelletLoop system n (addr + 1)
        (if readRam system addr = 0 then pelletsCleared + 1 else pelletsCleared)

/-- The first ghost loop of `step`: `ghostStates[i] = readRam(&system, 0x4EF0 + i)`
for `i = 0..3`. -/
def ghostStates (system : System) : List Int :=
  (List.range 4).map (fun i => (readRam system (0x4EF0 + i) : Int))

/-- The second ghost loop of `step`: `m_reward += 5` for every entry of
`ghostStates` equal to `GHOST_EATEN_STATE`. -/
def ghostLoop (GHOST_EATEN_STATE : Int) (states : List Int)
    (self : MsPacmanSettings) : MsPacmanSettings :=
  states.foldl
    (fun self g =>
      if g = GHOST_EATEN_STATE then { self with m_reward := self.m_reward + 5 } else self)
    self

/-- The method `MsPacmanSettings::step(const System& system)`.  The constant
`GHOST_EATEN_STATE` is declared in the header, which is not part of the source
at hand, so it is a parameter. -/
def step (GHOST_EATEN_STATE : Int) (self : MsPacmanSettings) (system : System) :
    MsPacmanSettings :=
  -- Update lives as before
  let lives_byte : Nat := readRam system 0xFB &&& 0xF
  let death_timer : Nat := readRam system 0xA7
  let self := { self with m_lives := (((lives_byte &&& 0x7) + 1 : Nat) : Int) }
  -- Track pellets cleared directly
  let pelletsCleared : Int := pelletLoop system (0x43FF + 1 - 0x4000) 0x4000 0
  -- Track ghost interactions directly
  let ghosts := ghostStates system
  -- Compute reward
  let self := { self with m_reward := 0 }
  let self :=
    if self.m_lives < self.m_prev_lives then
      { self with m_reward := self.m_reward - 10 }
    else if pelletsCleared > self.m_prevPelletsCleared then
      { self with m_reward := self.m_reward + (pelletsCleared - self.m_prevPelletsCleared) }
    else self
  let self := ghostLoop GHOST_EATEN_STATE ghosts self
  -- Survival bonus
  let self := if !self.m_terminal then { self with m_reward := self.m_reward + 1 } else self
  -- Update game state
  let self := { self with m_prev_lives := self.m_lives }
  let self := { self with m_prevPelletsCleared := pelletsCleared }
  { self with m_terminal := (lives_byte == 0 && death_timer == 0x53) }

/-- The method `MsPacmanSettings::isTerminal()`. -/
def isTerminal (self : MsPacmanSettings) : Bool := self.m_terminal

/-- The method `MsPacmanSettings::getReward()`. -/
def getReward (self : MsPacmanSettings) : Int := self.m_reward

/-- The method `MsPacmanSettings::reset()`. -/
def reset (self : MsPacmanSettings) : MsPacmanSettings :=
  let self := { self with m_reward := 0 }
  let self := { self with m_score := 0 }
  let self := { self with m_terminal := false }
  let self := { self with m_lives := 3 }
  let self := { self with m_prev_lives := self.m_lives }
  { self with m_prevPelletsCleared := 0 }

/-- The constructor `MsPacmanSettings::MsPacmanSettings() { reset(); }`, run on
the storage `uninit` of the new object. -/
def construct (uninit : MsPacmanSettings) : MsPacmanSettings := reset uninit

end MsPacmanSettings

/-! ## Serialization stream -/

/-- Modelled from the spec: one item of the host's binary serialization stream
(`Serializer` / `Deserializer`, declared outside this file's source), which
supports ordered integer and boolean puts and gets. -/
inductive Item where
  | int (v : Int)
  | bool (b : Bool)
  deriving DecidableEq, Repr

/-- Modelled from the spec: the write end of the stream, the items written so
far in order. -/
abbrev Serializer := List Item

/-- Modelled from the spec: the read end of the stream, the items not yet
read in order. -/
abbrev Deserializer := List Item

/-- Modelled from the spec: `ser.putInt(v)` appends one integer. -/
def Serializer.putInt (ser : Serializer) (v : Int) : Serializer := ser ++ [Item.int v]

/-- Modelled from the spec: `ser.putBool(b)` appends one boolean. -/
def Serializer.putBool (ser : Serializer) (b : Bool) : Serializer := ser ++ [Item.bool b]

/-- Modelled from the spec: `ser.getInt()` reads the next item, which has to be
an integer; the result is `none` on an exhausted or mismatched stream. -/
def Deserializer.getInt : Deserializer → Option (Int × Deserializer)
  | Item.int v :: rest => some (v, rest)
  | _ => none

/-- Modelled from the spec: `ser.getBool()` reads the next item, which has to
be a boolean; the result is `none` on an exhausted or mismatched stream. -/
def Deserializer.getBool : Deserializer → Option (Bool × Deserializer)
  | Item.bool b :: rest => some (b, rest)
  | _ => none

namespace MsPacmanSettings

/-- The method `MsPacmanSettings::saveState(Serializer& ser)`; it returns the
object after the call together with the stream. -/
def saveState (self : MsPacmanSettings) (ser : Serializer) :
    MsPacmanSettings × Serializer :=
  let ser := ser.putInt self.m_reward
  let ser := ser.putInt self.m_score
  let ser := ser.putBool self.m_terminal
  let ser := ser.putInt self.m_lives
  let ser := ser.putInt self.m_prev_lives
  (self, ser)

/-- The method `MsPacmanSettings::loadState(Deserializer& ser)`; it returns the
object after the call together with the rest of the stream. -/
def loadState (self : MsPacmanSettings) (ser : Deserializer) :
    Option (MsPacmanSettings × Deserializer) := do
  let (v, ser) ← ser.getInt
  let self := { self with m_reward := v }
  let (v, ser) ← ser.getInt
  let self := { self with m_score := v }
  let (b, ser) ← ser.getBool
  let self := { self with m_terminal := b }
  let (v, ser) ← ser.getInt
  let self := { self with m_lives := v }
  let (v, ser) ← ser.getInt
  let self := { self with m_prev_lives := v }
  pure (self, ser)

end MsPacmanSettings

/-! ## Minimal action set -/

/-- Modelled from the spec: the host's action enumeration (`Action`, declared
outside this file's source), a fixed finite domain: the no-op, the eight
movement directions and their fire-button variants for player A, the same
eighteen for player B, and the host's control actions. -/
inductive Action where
  | PLAYER_A_NOOP | PLAYER_A_FIRE | PLAYER_A_UP | PLAYER_A_RIGHT | PLAYER_A_LEFT
  | PLAYER_A_DOWN | PLAYER_A_UPRIGHT | PLAYER_A_UPLEFT | PLAYER_A_DOWNRIGHT
  | PLAYER_A_DOWNLEFT | PLAYER_A_UPFIRE | PLAYER_A_RIGHTFIRE | PLAYER_A_LEFTFIRE
  | PLAYER_A_DOWNFIRE | PLAYER_A_UPRIGHTFIRE | PLAYER_A_UPLEFTFIRE
  | PLAYER_A_DOWNRIGHTFIRE | PLAYER_A_DOWNLEFTFIRE
  | PLAYER_B_NOOP | PLAYER_B_FIRE | PLAYER_B_UP | PLAYER_B_RIGHT | PLAYER_B_LEFT
  | PLAYER_B_DOWN | PLAYER_B_UPRIGHT | PLAYER_B_UPLEFT | PLAYER_B_DOWNRIGHT
  | PLAYER_B_DOWNLEFT | PLAYER_B_UPFIRE | PLAYER_B_RIGHTFIRE | PLAYER_B_LEFTFIRE
  | PLAYER_B_DOWNFIRE | PLAYER_B_UPRIGHTFIRE | PLAYER_B_UPLEFTFIRE
  | PLAYER_B_DOWNRIGHTFIRE | PLAYER_B_DOWNLEFTFIRE
  | RESET | UNDEFINED | RANDOM | SAVE_STATE | LOAD_STATE | SYSTEM_RESET
  deriving DecidableEq, Repr

/-- The nine actions named in the `switch` of `isMinimal`. -/
def minimalActions : List Action :=
  [Action.PLAYER_A_NOOP, Action.PLAYER_A_UP, Action.PLAYER_A_RIGHT, Action.PLAYER_A_LEFT,
    Action.PLAYER_A_DOWN, Action.PLAYER_A_UPRIGHT, Action.PLAYER_A_UPLEFT,
    Action.PLAYER_A_DOWNRIGHT, Action.PLAYER_A_DOWNLEFT]

/-- The fire-button variants of the action domain. -/
def fireActions : List Action :=
  [Action.PLAYER_A_FIRE, Action.PLAYER_A_UPFIRE, Action.PLAYER_A_RIGHTFIRE,
    Action.PLAYER_A_LEFTFIRE, Action.PLAYER_A_DOWNFIRE, Action.PLAYER_A_UPRIGHTFIRE,
    Action.PLAYER_A_UPLEFTFIRE, Action.PLAYER_A_DOWNRIGHTFIRE, Action.PLAYER_A_DOWNLEFTFIRE,
    Action.PLAYER_B_FIRE, Action.PLAYER_B_UPFIRE, Action.PLAYER_B_RIGHTFIRE,
    Action.PLAYER_B_LEFTFIRE, Action.PLAYER_B_DOWNFIRE, Action.PLAYER_B_UPRIGHTFIRE,
    Action.PLAYER_B_UPLEFTFIRE, Action.PLAYER_B_DOWNRIGHTFIRE, Action.PLAYER_B_DOWNLEFTFIRE]

namespace MsPacmanSettings

/-- The method `MsPacmanSettings::isMinimal(const Action& a)`. -/
def isMinimal (_self : MsPacmanSettings) (a : Action) : Bool :=
  match a with
  | Action.PLAYER_A_NOOP
  | Action.PLAYER_A_UP
  | Action.PLAYER_A_RIGHT
  | Action.PLAYER_A_LEFT
  | Action.PLAYER_A_DOWN
  | Action.PLAYER_A_UPRIGHT
  | Action.PLAYER_A_UPLEFT
  | Action.PLAYER_A_DOWNRIGHT
  | Action.PLAYER_A_DOWNLEFT => true
  | _ => false

end MsPacmanSettings

/-! ## Game modes -/

/-- One call issued on the emulator's control handle. -/
inductive EmuCall where
  | pressSelect (frames : Nat)
  | softReset
  deriving DecidableEq, Repr

/-- Modelled from the spec: the host emulator behind `System& system` and
`StellaEnvironmentWrapper` (both declared outside this file's source), over a
type `E` of emulator states: the memory snapshot a state shows, the effect of
holding select for a number of frames, and the effect of a soft reset. -/
structure Emulator (E : Type) where
  system : E → System
  pressSelect : E → Nat → E
  softReset : E → E

/-- How a call of `setMode` ends: it returns, it throws `std::runtime_error` with
the given message, or its loop is still running when the iteration budget of
the model is used up. -/
inductive Outcome where
  | returned
  | threw (what : String)
  | running
  deriving DecidableEq, Repr

/-- The variables of a select loop of `setMode`: the emulator state, the calls
issued so far, the local variables `mode` and `var`, and whether the loop
condition has been found false. -/
structure LoopState (E : Type) where
  emu : E
  calls : List EmuCall
  mode : Nat
  var : Nat
  exited : Bool

/-- What a call of `setMode` leaves behind: the adapter, the emulator state, the
calls issued on the control handle in order, the pair `(mode, var)` last read
(if any was read), and how the call ended. -/
structure SetModeResult (E : Type) where
  self : MsPacmanSettings
  emu : E
  calls : List EmuCall
  lastRead : Option (Nat × Nat)
  outcome : Outcome

namespace MsPacmanSettings

/-- The loop `for (unsigned int i = 0; i < modes.size(); i++) modes[i] = i;` of
`getAvailableModes`, with `n` iterations still to run and the loop variable
at `i`. -/
def modesLoop : Nat → Nat → List Nat → List Nat
  | 0, _, modes => modes
  | n + 1, i, modes => modesLoop n (i + 1) (modes.set i i)

/-- The method `MsPacmanSettings::getAvailableModes()`.  `getNumModes()` is
defined in the header, which is not part of the source at hand, so its value is
a parameter. -/
def getAvailableModes (getNumModes : Nat) (_self : MsPacmanSettings) : List Nat :=
  let modes : List Nat := List.replicate getNumModes 0
  modesLoop modes.length 0 modes

/-- A select loop of `setMode`, `while (cond(mode, var)) { pressSelect(10);
mode = readRam(0x99); var = readRam(0xA1); }`, allowed `fuel` iterations. -/
def selectLoop {E : Type} (host : Emulator E) (cond : Nat → Nat → Bool) :
    Nat → LoopState E → LoopState E
  | 0, st => { st with exited := !(cond st.mode st.var) }
  | fuel + 1, st =>
      if cond st.mode st.var then
        -- hold select button for 10 frames
        let emu := host.pressSelect st.emu 10
        selectLoop host cond fuel
          { emu := emu
            calls := st.calls ++ [EmuCall.pressSelect 10]
            mode := readRam (host.system emu) 0x99
            var := readRam (host.system emu) 0xA1
            exited := false }
      else { st with exited := true }

/-- The method `MsPacmanSettings::setMode(m, system, environment)`, with the
emulator in state `emu` on entry and each select loop allowed `fuel`
iterations. -/
def setMode {E : Type} (getNumModes : Nat) (self : MsPacmanSettings) (m : Nat)
    (host : Emulator E) (emu : E) (fuel : Nat) : SetModeResult E :=
  if m < getNumModes then
    let st : LoopState E :=
      if m = 0 then
        -- read the mode we are currently in, and the variation
        let mode := readRam (host.system emu) 0x99
        let var := readRam (host.system emu) 0xA1
        -- press select until the correct mode is reached
        selectLoop host (fun mode var => mode != 1 || var != 1) fuel
          { emu := emu, calls := [], mode := mode, var := var, exited := false }
      else
        let mode := readRam (host.system emu) 0x99
        let var := readRam (host.system emu) 0xA1
        selectLoop host (fun mode var => mode != m || var != 0) fuel
          { emu := emu, calls := [], mode := mode, var := var, exited := false }
    if st.exited then
      -- reset the environment to apply changes.
      { self := self
        emu := host.softReset st.emu
        calls := st.calls ++ [EmuCall.softReset]
        lastRead := some (st.mode, st.var)
        outcome := Outcome.returned }
    else
      { self := self, emu := st.emu, calls := st.calls, lastRead := some (st.mode, st.var),
        outcome := Outcome.running }
  else
    { self := self, emu := emu, calls := [], lastRead := none,
      outcome := Outcome.threw "This mode doesn't currently exist for this game" }

/-- The state after one `step` call per snapshot of `mems`, in order, started
from `self`. -/
def stepAll (GHOST_EATEN_STATE : Int) (self : MsPacmanSettings) (mems : List System) :
    MsPacmanSettings :=
  mems.foldl (step GHOST_EATEN_STATE) self

end MsPacmanSettings

/-! ## Quantities the properties are stated with -/

/-- The terminal condition on a snapshot: low nibble of byte `0xFB` equal to 0
and byte `0xA7` equal to `0x53`. -/
def memTerminal (system : System) : Bool :=
  (readRam system 0xFB &&& 0xF) == 0 && readRam system 0xA7 == 0x53

/-- The lives decoded from a snapshot, `((mem[0xFB] & 0xF) & 0x7) + 1`. -/
def decodedLives (system : System) : Int :=
  (((readRam system 0xFB &&& 0xF) &&& 0x7) + 1 : Nat)

/-- The number of zero bytes among the 1024 addresses `0x4000..0x43FF`. -/
def zeroCount (system : System) : Int :=
  (((List.range 1024).filter (fun i => readRam system (0x4000 + i) = 0)).length : Nat)

/-- The four ghost offsets `0x4EF0..0x4EF3`. -/
def ghostOffsets : List Nat := [0x4EF0, 0x4EF1, 0x4EF2, 0x4EF3]

/-- The number of the four ghost bytes equal to `GHOST_EATEN_STATE`. -/
def eatenGhosts (GHOST_EATEN_STATE : Int) (system : System) : Int :=
  ((ghostOffsets.filter (fun a => (readRam system a : Int) = GHOST_EATEN_STATE)).length : Nat)

/-- The life-loss / pellet-progress term of the reward: `-10` on a life loss,
otherwise the number of newly cleared cells, otherwise 0. -/
def lifeOrPelletTerm (self : MsPacmanSettings) (system : System) : Int :=
  if decodedLives system < self.m_prev_lives then -10
  else if zeroCount system > self.m_prevPelletsCleared then
    zeroCount system - self.m_prevPelletsCleared
  else 0

/-! ## Sample snapshots and states -/

/-- A snapshot with `livesByte` at offset `0xFB`, zero bytes at the first
`cleared` addresses of the pellet region `0x4000..0x43FF`, and the byte `fill`
everywhere else (in particular at `0xA7` and at the four ghost offsets). -/
def sampleSnapshot (livesByte cleared fill : Nat) : System :=
  ⟨fun a =>
    if a = 0xFB then livesByte
    else if 0x4000 ≤ a ∧ a < 0x4000 + cleared then 0
    else fill⟩

/-- A snapshot that meets the terminal condition: byte `0xFB` is 0 and every
other byte, `0xA7` included, is `0x53`. -/
def terminalSnapshot : System := sampleSnapshot 0 0 0x53

/-- The snapshot `sampleSnapshot 2 40 1` with the byte at the first ghost offset
`0x4EF0` replaced by `7`. -/
def oneGhostSnapshot : System :=
  ⟨fun a => if a = 0x4EF0 then 7 else (sampleSnapshot 2 40 1).peek a⟩

/-- The state every `reset` produces. -/
def freshState : MsPacmanSettings :=
  { m_reward := 0, m_score := 0, m_terminal := false, m_lives := 3, m_prev_lives := 3,
    m_prevPelletsCleared := 0 }

/-- The pair `(mode, var)` the select loop of `setMode` waits for: `(1, 1)` for
mode 0 and `(m, 0)` for any other mode `m`. -/
def targetPair (m : Nat) : Nat × Nat := if m = 0 then (1, 1) else (m, 0)

/-- The emulator state after `k` presses of select of 10 frames each. -/
def afterPresses {E : Type} (host : Emulator E) (emu : E) : Nat → E
  | 0 => emu
  | k + 1 => host.pressSelect (afterPresses host emu k) 10

/-- The pair `(mem[0x99], mem[0xA1])` read after `k` presses of select. -/
def pairAfter {E : Type} (host : Emulator E) (emu : E) (k : Nat) : Nat × Nat :=
  (readRam (host.system (afterPresses host emu k)) 0x99,
   readRam (host.system (afterPresses host emu k)) 0xA1)

/-- A sample emulator whose state is a menu position: each press of select
advances it by one, a soft reset leaves it, and the memory shows mode
`position % 4` at `0x99` and variation `position / 4 % 2` at `0xA1`. -/
def menuEmulator : Emulator Nat :=
  { system := fun pos => ⟨fun a => if a = 0x99 then pos % 4 else if a = 0xA1 then pos / 4 % 2 else 0⟩
    pressSelect := fun pos _ => pos + 1
    softReset := fun pos => pos }

/-! ## Basic lemmas -/

open MsPacmanSettings

theorem pelletLoop_acc (system : System) (n addr : Nat) (acc : Int) :
    pelletLoop system n addr acc = acc + pelletLoop system n addr 0 := by
  induction n generalizing addr acc with
  | zero => simp [pelletLoop]
  | succ n ih =>
    simp only [pelletLoop]
    rw [ih (addr + 1), ih (addr + 1) (if readRam system addr = 0 then 0 + 1 else 0)]
    split <;> ring

theorem pelletLoop_eq_filter (system : System) (n addr : Nat) :
    pelletLoop system n addr 0 =
      (((List.range n).filter (fun i => readRam system (addr + i) = 0)).length : Nat) := by
  induction n generalizing addr with
  | zero => simp [pelletLoop]
  | succ n ih =>
    simp only [pelletLoop]
    rw [pelletLoop_acc, ih (addr + 1), List.range_succ_eq_map, List.filter_cons]
    have hmap : (List.filter (fun i => decide (readRam system (addr + i) = 0))
          (List.map Nat.succ (List.range n))).length
        = (List.filter (fun i => decide (readRam system (addr + 1 + i) = 0))
          (List.range n)).length := by
      rw [List.filter_map, List.length_map]
      congr 1
      apply List.filter_congr
      intro x _
      simp [Nat.succ_eq_add_one, Nat.add_assoc, Nat.add_comm 1 x]
    by_cases h0 : readRam system addr = 0
    · simp only [h0, Nat.add_zero, decide_True, if_true, List.length_cons, hmap]
      push_cast
      ring
    · simp only [h0, Nat.add_zero, decide_False, if_false, hmap]
      simp [hmap]

theorem pelletsCleared_eq_zeroCount (system : System) :
    pelletLoop system (0x43FF + 1 - 0x4000) 0x4000 0 = zeroCount system := by
  rw [pelletLoop_eq_filter]
  rfl

theorem zeroCount_nonneg (system : System) : 0 ≤ zeroCount system := by
  unfold zeroCount
  exact Int.natCast_nonneg _

theorem zeroCount_le (system : System) : zeroCount system ≤ 1024 := by
  unfold zeroCount
  have h := List.length_filter_le (fun i => decide (readRam system (0x4000 + i) = 0))
    (List.range 1024)
  rw [List.length_range] at h
  exact_mod_cast h

theorem ghostLoop_reward (G : Int) (states : List Int) (self : MsPacmanSettings) :
    ghostLoop G states self =
      { self with
        m_reward := self.m_reward + 5 * ((states.filter (fun g => g = G)).length : Nat) } := by
  induction states generalizing self with
  | nil => simp [ghostLoop]
  | cons g gs ih =>
    have hstep : ghostLoop G (g :: gs) self =
        ghostLoop G gs
          (if g = G then { self with m_reward := self.m_reward + 5 } else self) := rfl
    rw [hstep, ih]
    by_cases hg : g = G
    · simp only [hg, if_true, List.filter_cons, decide_True, List.length_cons]
      congr 1
      push_cast
      ring
    · simp [hg, List.filter_cons]

theorem ghostStates_filter_length (G : Int) (system : System) :
    (((ghostStates system).filter (fun g => g = G)).length : Int) = eatenGhosts G system := by
  have hmap : ghostStates system = ghostOffsets.map (fun a => (readRam system a : Int)) := rfl
  unfold eatenGhosts
  rw [hmap, List.filter_map, List.length_map]
  rfl

theorem eatenGhosts_nonneg (G : Int) (system : System) : 0 ≤ eatenGhosts G system := by
  unfold eatenGhosts
  exact Int.natCast_nonneg _

theorem eatenGhosts_le (G : Int) (system : System) : eatenGhosts G system ≤ 4 := by
  unfold eatenGhosts
  have h := List.length_filter_le (fun a => decide ((readRam system a : Int) = G)) ghostOffsets
  have h4 : ghostOffsets.length = 4 := rfl
  rw [h4] at h
  exact_mod_cast h

/-- What `step` computes, field by field. -/
theorem step_eq (G : Int) (self : MsPacmanSettings) (system : System) :
    step G self system =
      { m_reward := lifeOrPelletTerm self system + 5 * eatenGhosts G system
          + (if self.m_terminal then 0 else 1)
        m_score := self.m_score
        m_terminal := memTerminal system
        m_lives := decodedLives system
        m_prev_lives := decodedLives system
        m_prevPelletsCleared := zeroCount system } := by
  unfold step
  simp only [pelletsCleared_eq_zeroCount, ghostLoop_reward, ghostStates_filter_length]
  unfold lifeOrPelletTerm decodedLives memTerminal
  obtain ⟨r, sc, t, l, pl, pp⟩ := self
  cases t <;> split_ifs <;> simp_all

theorem memTerminal_iff (system : System) :
    memTerminal system = true ↔
      (readRam system 0xFB &&& 0xF = 0 ∧ readRam system 0xA7 = 0x53) := by
  simp [memTerminal]

theorem decodedLives_bounds (system : System) :
    1 ≤ decodedLives system ∧ decodedLives system ≤ 8 := by
  unfold decodedLives
  have h : (readRam system 0xFB &&& 0xF) &&& 0x7 ≤ 7 := Nat.and_le_right
  constructor
  · exact_mod_cast Nat.le_add_left 1 _
  · exact_mod_cast Nat.succ_le_succ h |>.trans (by decide)

theorem eatenGhosts_eq_zero (G : Int) (system : System)
    (h : ∀ a ∈ ghostOffsets, (readRam system a : Int) ≠ G) : eatenGhosts G system = 0 := by
  unfold eatenGhosts
  have hnil : ghostOffsets.filter (fun a => decide ((readRam system a : Int) = G)) = [] := by
    rw [List.filter_eq_nil_iff]
    intro a ha
    simpa using h a ha
  rw [hnil]
  rfl

theorem lifeOrPelletTerm_bounds (s : MsPacmanSettings) (system : System)
    (h0 : 0 ≤ s.m_prevPelletsCleared) :
    -10 ≤ lifeOrPelletTerm s system ∧ lifeOrPelletTerm s system ≤ 1024 := by
  have hle := zeroCount_le system
  unfold lifeOrPelletTerm
  split_ifs <;> constructor <;> omega

/-- With `m_prevPelletsCleared` non-negative, the reward left by `step` lies in
`[-10, 1045]`. -/
theorem step_reward_bounds (G : Int) (s : MsPacmanSettings) (system : System)
    (h0 : 0 ≤ s.m_prevPelletsCleared) :
    -10 ≤ (step G s system).m_reward ∧ (step G s system).m_reward ≤ 1045 := by
  have hl := lifeOrPelletTerm_bounds s system h0
  have hg0 := eatenGhosts_nonneg G system
  have hg4 := eatenGhosts_le G system
  rw [step_eq]
  simp only
  split_ifs <;> constructor <;> omega

/-! ## The step: terminal flag, lives and reward -/

/-- Claim C1, evaluated at a failing input: on a freshly reset adapter, one step
on a snapshot that meets the terminal condition leaves the terminal flag true
and nevertheless adds the `+1` survival bonus; the reward is
`-10 + 5 * k + 1`, which differs from the value the claim gives,
`lifeOrPelletTerm + 5 * k + (if isTerminal then 0 else 1)`. -/
theorem step_survival_bonus_on_terminal_step (G : Int) (s0 : MsPacmanSettings) :
    (step G (reset s0) terminalSnapshot).isTerminal = true ∧
    (step G (reset s0) terminalSnapshot).getReward
      = -10 + 5 * eatenGhosts G terminalSnapshot + 1 ∧
    (step G (reset s0) terminalSnapshot).getReward
      ≠ lifeOrPelletTerm (reset s0) terminalSnapshot + 5 * eatenGhosts G terminalSnapshot
          + (if (step G (reset s0) terminalSnapshot).isTerminal then 0 else 1) := by
  have hterm : memTerminal terminalSnapshot = true := by decide
  have hterm0 : (reset s0).m_terminal = false := rfl
  have hlop : lifeOrPelletTerm (reset s0) terminalSnapshot = -10 := by
    have hl : decodedLives terminalSnapshot = 1 := by decide
    have hp : (reset s0).m_prev_lives = 3 := rfl
    simp [lifeOrPelletTerm, hl, hp]
  rw [step_eq]
  simp only [isTerminal, getReward, hterm, hterm0, hlop]
  refine ⟨trivial, by simp, ?_⟩
  simp

/-- Claim C2: after `step`, `isTerminal()` is true exactly when the low nibble
of byte `0xFB` is 0 and byte `0xA7` is `0x53`, and the value is the same for
every adapter state the step starts from. -/
theorem step_isTerminal_iff (G : Int) (s : MsPacmanSettings) (system : System) :
    ((step G s system).isTerminal = true ↔
      (readRam system 0xFB &&& 0xF = 0 ∧ readRam system 0xA7 = 0x53)) ∧
    ((step G s system).isTerminal = false ↔
      (readRam system 0xFB &&& 0xF ≠ 0 ∨ readRam system 0xA7 ≠ 0x53)) ∧
    (∀ (G2 : Int) (s2 : MsPacmanSettings),
      (step G2 s2 system).isTerminal = (step G s system).isTerminal) := by
  refine ⟨?_, ?_, ?_⟩
  · rw [step_eq]
    exact memTerminal_iff system
  · rw [step_eq]
    simp only [isTerminal]
    rw [← Bool.not_eq_true, memTerminal_iff]
    tauto
  · intro G2 s2
    rw [step_eq, step_eq]
    rfl

/-- Claim C3, refuted as stated: with byte `0xFB` equal to 7 the lives value
stored by `step` is 8, which is outside `[1, 4]`. -/
theorem step_lives_exceeds_four :
    (step 0 freshState (sampleSnapshot 7 0 1)).m_lives = 8 ∧
    ¬ (1 ≤ (step 0 freshState (sampleSnapshot 7 0 1)).m_lives ∧
        (step 0 freshState (sampleSnapshot 7 0 1)).m_lives ≤ 4) := by
  have h : (step 0 freshState (sampleSnapshot 7 0 1)).m_lives = 8 := by
    rw [step_eq]
    decide
  rw [h]
  decide

/-- Claim C3, amended: the lives value stored by `step` is
`((mem[0xFB] & 0xF) & 0x7) + 1` and lies in the closed range `[1, 8]`. -/
theorem step_lives_range (G : Int) (s : MsPacmanSettings) (system : System) :
    (step G s system).m_lives = (((readRam system 0xFB &&& 0xF) &&& 0x7) + 1 : Nat) ∧
    1 ≤ (step G s system).m_lives ∧ (step G s system).m_lives ≤ 8 := by
  rw [step_eq]
  exact ⟨rfl, decodedLives_bounds system⟩

/-! ## The step: reward branches -/

/-- Claim C4: life loss suppresses the pellet bonus.  For two adapter states
that agree on `m_prev_lives` and `m_terminal`, and a snapshot whose decoded
lives are below `m_prev_lives`, `step` leaves the same reward whatever the two
values of `m_prevPelletsCleared`; that reward is the `-10` term plus the ghost
and survival terms, with no pellet delta. -/
theorem life_loss_suppresses_pellet_bonus (G : Int) (s1 s2 : MsPacmanSettings)
    (system : System)
    (hlives : s1.m_prev_lives = s2.m_prev_lives)
    (hterm : s1.m_terminal = s2.m_terminal)
    (hloss : decodedLives system < s1.m_prev_lives) :
    (step G s1 system).getReward = (step G s2 system).getReward ∧
    (step G s1 system).getReward
      = -10 + 5 * eatenGhosts G system + (if s1.m_terminal then 0 else 1) := by
  have h1 : lifeOrPelletTerm s1 system = -10 := by
    simp [lifeOrPelletTerm, hloss]
  have h2 : lifeOrPelletTerm s2 system = -10 := by
    simp [lifeOrPelletTerm, ← hlives, hloss]
  rw [step_eq, step_eq]
  simp only [getReward, h1, h2, hterm]
  trivial

set_option maxRecDepth 100000 in
/-- Witness for C4: previous lives 3, decoded lives 1, five newly cleared cells
against a previous count of 0 in the first state and 500 in the second. -/
theorem life_loss_suppresses_pellet_bonus_witness :
    decodedLives (sampleSnapshot 0 5 1) < freshState.m_prev_lives ∧
    zeroCount (sampleSnapshot 0 5 1) > freshState.m_prevPelletsCleared ∧
    ((step 9 freshState (sampleSnapshot 0 5 1)).getReward
        = (step 9 { freshState with m_reward := 7, m_prevPelletsCleared := 500 }
            (sampleSnapshot 0 5 1)).getReward ∧
      (step 9 freshState (sampleSnapshot 0 5 1)).getReward
        = -10 + 5 * eatenGhosts 9 (sampleSnapshot 0 5 1)
            + (if freshState.m_terminal then 0 else 1)) :=
  ⟨by decide, by decide,
    life_loss_suppresses_pellet_bonus 9 freshState
      { freshState with m_reward := 7, m_prevPelletsCleared := 500 } (sampleSnapshot 0 5 1)
      rfl rfl (by decide)⟩

theorem decodedLives_congr (sys1 sys2 : System)
    (h : ∀ a, a ∉ ghostOffsets → readRam sys1 a = readRam sys2 a) :
    decodedLives sys1 = decodedLives sys2 := by
  unfold decodedLives
  rw [h 0xFB (by decide)]

theorem zeroCount_congr (sys1 sys2 : System)
    (h : ∀ a, a ∉ ghostOffsets → readRam sys1 a = readRam sys2 a) :
    zeroCount sys1 = zeroCount sys2 := by
  have hf : ∀ n : Nat, n ≤ 1024 →
      (List.range n).filter (fun i => decide (readRam sys1 (0x4000 + i) = 0))
        = (List.range n).filter (fun i => decide (readRam sys2 (0x4000 + i) = 0)) := by
    intro n hn
    apply List.filter_congr
    intro i hi
    have hlt : i < n := List.mem_range.mp hi
    have hnot : 0x4000 + i ∉ ghostOffsets := by
      simp only [ghostOffsets, List.mem_cons, List.mem_singleton, List.not_mem_nil, or_false]
      omega
    rw [h _ hnot]
  unfold zeroCount
  rw [hf 1024 (Nat.le_refl _)]

/-- Claim C5: the ghost-eaten bonus is additive per ghost.  For two snapshots
that agree at every offset other than the four ghost offsets, the rewards of
`step` from the same state differ by `5 * (k1 - k2)`, where `k1`, `k2` in
`0..4` count the ghost bytes equal to `GHOST_EATEN_STATE`. -/
theorem ghost_bonus_additive (G : Int) (s : MsPacmanSettings) (sys1 sys2 : System)
    (h : ∀ a, a ∉ ghostOffsets → readRam sys1 a = readRam sys2 a) :
    (step G s sys1).getReward - (step G s sys2).getReward
      = 5 * (eatenGhosts G sys1 - eatenGhosts G sys2) ∧
    (0 ≤ eatenGhosts G sys1 ∧ eatenGhosts G sys1 ≤ 4) ∧
    (0 ≤ eatenGhosts G sys2 ∧ eatenGhosts G sys2 ≤ 4) := by
  have hlop : lifeOrPelletTerm s sys1 = lifeOrPelletTerm s sys2 := by
    unfold lifeOrPelletTerm
    rw [decodedLives_congr sys1 sys2 h, zeroCount_congr sys1 sys2 h]
  refine ⟨?_, ⟨eatenGhosts_nonneg G sys1, eatenGhosts_le G sys1⟩,
    ⟨eatenGhosts_nonneg G sys2, eatenGhosts_le G sys2⟩⟩
  rw [step_eq, step_eq]
  simp only [getReward, hlop]
  ring

theorem oneGhostSnapshot_agrees :
    ∀ a, a ∉ ghostOffsets → readRam oneGhostSnapshot a = readRam (sampleSnapshot 2 40 1) a := by
  intro a ha
  have hne : a ≠ 0x4EF0 := by
    intro h
    exact ha (by rw [h]; decide)
  simp [readRam, oneGhostSnapshot, hne]

/-- Witness for C5: one eaten ghost against none, with `GHOST_EATEN_STATE = 7`;
the rewards differ by 5. -/
theorem ghost_bonus_additive_witness :
    (∀ a, a ∉ ghostOffsets →
      readRam oneGhostSnapshot a = readRam (sampleSnapshot 2 40 1) a) ∧
    eatenGhosts 7 oneGhostSnapshot = 1 ∧ eatenGhosts 7 (sampleSnapshot 2 40 1) = 0 ∧
    ((step 7 freshState oneGhostSnapshot).getReward
        - (step 7 freshState (sampleSnapshot 2 40 1)).getReward
        = 5 * (eatenGhosts 7 oneGhostSnapshot - eatenGhosts 7 (sampleSnapshot 2 40 1)) ∧
      (0 ≤ eatenGhosts 7 oneGhostSnapshot ∧ eatenGhosts 7 oneGhostSnapshot ≤ 4) ∧
      (0 ≤ eatenGhosts 7 (sampleSnapshot 2 40 1) ∧
        eatenGhosts 7 (sampleSnapshot 2 40 1) ≤ 4)) :=
  ⟨oneGhostSnapshot_agrees, by decide, by decide,
    ghost_bonus_additive 7 freshState oneGhostSnapshot (sampleSnapshot 2 40 1)
      oneGhostSnapshot_agrees⟩

/-- Claim C6: pellet progress is rewarded by the count of newly cleared cells.
From a non-terminal state, on a non-terminal snapshot with no eaten ghost and
decoded lives not below `m_prev_lives`, the reward after `step` is
`(p - m_prevPelletsCleared) + 1` when the zero-byte count `p` of the pellet
region exceeds `m_prevPelletsCleared`, and `1` otherwise. -/
theorem pellet_progress_reward (G : Int) (s : MsPacmanSettings) (system : System)
    (hs : s.m_terminal = false)
    (_hmem : ¬ (readRam system 0xFB &&& 0xF = 0 ∧ readRam system 0xA7 = 0x53))
    (hghost : ∀ a ∈ ghostOffsets, (readRam system a : Int) ≠ G)
    (hlives : decodedLives system ≥ s.m_prev_lives) :
    (step G s system).getReward =
      (if zeroCount system > s.m_prevPelletsCleared then
        (zeroCount system - s.m_prevPelletsCleared) + 1
      else 1) := by
  have hl : ¬ decodedLives system < s.m_prev_lives := not_lt.mpr hlives
  rw [step_eq]
  simp only [getReward, lifeOrPelletTerm, hl, if_false, eatenGhosts_eq_zero G system hghost, hs]
  split <;> simp

set_option maxRecDepth 100000 in
/-- Witness for C6: previous count 38, 40 zero bytes now, lives 3 unchanged,
no eaten ghost; the reward is `(40 - 38) + 1 = 3`. -/
theorem pellet_progress_reward_witness :
    zeroCount (sampleSnapshot 2 40 1) = 40 ∧
    decodedLives (sampleSnapshot 2 40 1) = 3 ∧
    (step 7 { freshState with m_prevPelletsCleared := 38 } (sampleSnapshot 2 40 1)).getReward
      = (if zeroCount (sampleSnapshot 2 40 1) > 38 then
          (zeroCount (sampleSnapshot 2 40 1) - 38) + 1
        else 1) :=
  ⟨by decide, by decide,
    pellet_progress_reward 7 { freshState with m_prevPelletsCleared := 38 }
      (sampleSnapshot 2 40 1) rfl (by decide) (by decide) (by decide)⟩

/-- Claim C7: life-loss scenario.  From a non-terminal state, on a non-terminal
snapshot with no eaten ghost whose decoded lives are below `m_prev_lives`, the
reward after `step` is `-10 + 1 = -9`. -/
theorem life_loss_reward (G : Int) (s : MsPacmanSettings) (system : System)
    (hs : s.m_terminal = false)
    (hloss : decodedLives system < s.m_prev_lives)
    (hghost : ∀ a ∈ ghostOffsets, (readRam system a : Int) ≠ G)
    (_hmem : ¬ (readRam system 0xFB &&& 0xF = 0 ∧ readRam system 0xA7 = 0x53)) :
    (step G s system).getReward = -9 := by
  rw [step_eq]
  simp [getReward, lifeOrPelletTerm, hloss, eatenGhosts_eq_zero G system hghost, hs]

set_option maxRecDepth 100000 in
/-- Witness for C7: previous lives 4 (decoded from nibble 3 by the step before),
current nibble 2, pellet count unchanged at 40. -/
theorem life_loss_reward_witness :
    (step 7 freshState (sampleSnapshot 3 40 1)).m_prev_lives = 4 ∧
    (step 7 freshState (sampleSnapshot 3 40 1)).m_prevPelletsCleared = 40 ∧
    zeroCount (sampleSnapshot 2 40 1) = 40 ∧
    decodedLives (sampleSnapshot 2 40 1) = 3 ∧
    (step 7 (step 7 freshState (sampleSnapshot 3 40 1)) (sampleSnapshot 2 40 1)).getReward
      = -9 :=
  ⟨by decide, by decide, by decide, by decide,
    life_loss_reward 7 (step 7 freshState (sampleSnapshot 3 40 1)) (sampleSnapshot 2 40 1)
      (by decide) (by decide) (by decide) (by decide)⟩

/-! ## Reset and construction -/

/-- Claim C8: `reset` yields the state with reward 0, score 0, terminal false,
lives 3, previous lives 3 and previous pellets cleared 0, whatever the state it
is applied to (so it is idempotent), and a freshly constructed adapter is that
same state. -/
theorem reset_eq_fresh (s s2 : MsPacmanSettings) :
    reset s =
      { m_reward := 0, m_score := 0, m_terminal := false, m_lives := 3, m_prev_lives := 3,
        m_prevPelletsCleared := 0 } ∧
    reset s = reset s2 ∧
    reset (reset s) = reset s ∧
    construct s = reset s2 := by
  refine ⟨rfl, rfl, rfl, rfl⟩

/-! ## Saving and loading -/

theorem saveState_eq (s : MsPacmanSettings) (ser : Serializer) :
    saveState s ser =
      (s, ser ++ [Item.int s.m_reward, Item.int s.m_score, Item.bool s.m_terminal,
        Item.int s.m_lives, Item.int s.m_prev_lives]) := by
  simp [saveState, Serializer.putInt, Serializer.putBool]

theorem loadState_five (t : MsPacmanSettings) (a b d e : Int) (c : Bool)
    (rest : Deserializer) :
    loadState t (Item.int a :: Item.int b :: Item.bool c :: Item.int d :: Item.int e :: rest)
      = some ({ m_reward := a, m_score := b, m_terminal := c, m_lives := d,
                m_prev_lives := e, m_prevPelletsCleared := t.m_prevPelletsCleared }, rest) :=
  rfl

theorem loadState_some_iff (t t2 : MsPacmanSettings) (ser rest : Deserializer) :
    loadState t ser = some (t2, rest) ↔
      ∃ (a b : Int) (c : Bool) (d e : Int),
        ser = Item.int a :: Item.int b :: Item.bool c :: Item.int d :: Item.int e :: rest ∧
        t2 = { m_reward := a, m_score := b, m_terminal := c, m_lives := d,
               m_prev_lives := e, m_prevPelletsCleared := t.m_prevPelletsCleared } := by
  constructor
  · intro h
    match ser, h with
    | Item.int a :: Item.int b :: Item.bool c :: Item.int d :: Item.int e :: r, h =>
      rw [loadState_five] at h
      simp only [Option.some.injEq, Prod.mk.injEq] at h
      exact ⟨a, b, c, d, e, by rw [h.2], h.1.symm⟩
  · rintro ⟨a, b, c, d, e, rfl, rfl⟩
    exact loadState_five t a b d e c rest

/-- Claim C9: round trip.  Loading, into any target state `t`, the stream that
`saveState s` produced yields a state whose reward, score, terminal flag, lives
and previous lives are those of `s`, and whose previous pellets cleared is the
value `t` had before the load; nothing of the stream but what followed the
saved items is left. -/
theorem loadState_saveState (s t : MsPacmanSettings) (rest : Deserializer) :
    loadState t ((saveState s []).2 ++ rest) =
      some ({ m_reward := s.m_reward, m_score := s.m_score, m_terminal := s.m_terminal,
              m_lives := s.m_lives, m_prev_lives := s.m_prev_lives,
              m_prevPelletsCleared := t.m_prevPelletsCleared }, rest) := by
  rw [saveState_eq]
  exact loadState_five t s.m_reward s.m_score s.m_lives s.m_prev_lives s.m_terminal rest

/-- Claim C10: `saveState` appends exactly five items to the stream, in the
order integer reward, integer score, boolean terminal, integer lives, integer
previous lives, and leaves the state unchanged; `loadState` succeeds exactly on
streams that start with five items of these types in this order, which it
consumes and stores in the same order, leaving the rest of the stream. -/
theorem saveState_loadState_format (s t t2 : MsPacmanSettings) (ser : Serializer)
    (inp rest : Deserializer) :
    (saveState s ser).1 = s ∧
    (saveState s ser).2 =
      ser ++ [Item.int s.m_reward, Item.int s.m_score, Item.bool s.m_terminal,
        Item.int s.m_lives, Item.int s.m_prev_lives] ∧
    (loadState t inp = some (t2, rest) ↔
      ∃ (a b : Int) (c : Bool) (d e : Int),
        inp = Item.int a :: Item.int b :: Item.bool c :: Item.int d :: Item.int e :: rest ∧
        t2 = { m_reward := a, m_score := b, m_terminal := c, m_lives := d,
               m_prev_lives := e, m_prevPelletsCleared := t.m_prevPelletsCleared }) := by
  refine ⟨?_, ?_, loadState_some_iff t t2 inp rest⟩
  · rw [saveState_eq]
  · rw [saveState_eq]

/-! ## Minimal action set -/

/-- Claim C11: `isMinimal` is true exactly for the nine actions no-op, up,
right, left, down, up-right, up-left, down-right and down-left of player A, it
is false for every fire-button variant, and its value is the same for every
adapter state. -/
theorem isMinimal_iff (s : MsPacmanSettings) (a : Action) :
    (isMinimal s a = true ↔ a ∈ minimalActions) ∧
    (isMinimal s a = false ↔ a ∉ minimalActions) ∧
    fireActions.all (fun f => !isMinimal s f) = true ∧
    (minimalActions.length = 9 ∧ minimalActions.Nodup) ∧
    (∀ s2 : MsPacmanSettings, isMinimal s2 a = isMinimal s a) := by
  refine ⟨?_, ?_, rfl, ⟨rfl, by decide⟩, fun s2 => rfl⟩
  · cases a <;> simp [isMinimal, minimalActions]
  · cases a <;> simp [isMinimal, minimalActions]

/-! ## Game modes -/

theorem modesLoop_range (n : Nat) :
    ∀ i : Nat, modesLoop n i (List.range i ++ List.replicate n 0) = List.range (i + n) := by
  induction n with
  | zero => intro i; simp [modesLoop]
  | succ n ih =>
    intro i
    have hset : (List.range i ++ List.replicate (n + 1) 0).set i i
        = List.range (i + 1) ++ List.replicate n 0 := by
      rw [List.set_append_right _ _ (by simp)]
      simp [List.replicate_succ, List.range_succ]
    simp only [modesLoop, hset]
    rw [ih (i + 1)]
    congr 1
    omega

theorem getAvailableModes_eq_range (N : Nat) (s : MsPacmanSettings) :
    getAvailableModes N s = List.range N := by
  have h := modesLoop_range N 0
  simp only [List.range_zero, List.nil_append, Nat.zero_add] at h
  simp only [getAvailableModes, List.length_replicate]
  exact h

theorem setMode_threw_iff {E : Type} (N : Nat) (s : MsPacmanSettings) (m : Nat)
    (host : Emulator E) (emu : E) (fuel : Nat) :
    (∃ what, (setMode N s m host emu fuel).outcome = Outcome.threw what) ↔ N ≤ m := by
  unfold setMode
  by_cases hm : m < N
  · simp only [hm, if_true, apply_ite SetModeResult.outcome]
    constructor
    · rintro ⟨what, h⟩
      split at h <;> split at h <;> simp at h
    · intro h
      omega
  · simp only [hm, if_false]
    constructor
    · intro _
      omega
    · intro _
      exact ⟨_, rfl⟩

/-- Claim C12: for a mode `m` with `m ≥ N` (`N = getNumModes()`), `setMode`
throws the invalid-mode error having issued no call on the emulator (no
`pressSelect`, no `softReset`), with the emulator and the adapter unchanged;
for `m < N` it does not throw. -/
theorem setMode_invalid_mode {E : Type} (N : Nat) (s : MsPacmanSettings) (m : Nat)
    (host : Emulator E) (emu : E) (fuel : Nat) :
    (N ≤ m →
      (setMode N s m host emu fuel).outcome
          = Outcome.threw "This mode doesn't currently exist for this game" ∧
        (setMode N s m host emu fuel).calls = [] ∧
        (setMode N s m host emu fuel).emu = emu ∧
        (setMode N s m host emu fuel).self = s) ∧
    (m < N → ¬ ∃ what, (setMode N s m host emu fuel).outcome = Outcome.threw what) := by
  constructor
  · intro h
    have hm : ¬ m < N := Nat.not_lt.mpr h
    simp only [setMode, hm, if_false]
    exact ⟨trivial, trivial, trivial, trivial⟩
  · intro h hthrew
    have := (setMode_threw_iff N s m host emu fuel).mp hthrew
    omega

/-- Witness for C12: with four modes, mode 4 is rejected without any emulator
call, and mode 2 is not rejected. -/
theorem setMode_invalid_mode_witness :
    ((setMode 4 freshState 4 menuEmulator 0 10).outcome
          = Outcome.threw "This mode doesn't currently exist for this game" ∧
        (setMode 4 freshState 4 menuEmulator 0 10).calls = [] ∧
        (setMode 4 freshState 4 menuEmulator 0 10).emu = 0 ∧
        (setMode 4 freshState 4 menuEmulator 0 10).self = freshState) ∧
    (¬ ∃ what, (setMode 4 freshState 2 menuEmulator 0 10).outcome = Outcome.threw what) :=
  ⟨(setMode_invalid_mode 4 freshState 4 menuEmulator 0 10).1 (by decide),
    (setMode_invalid_mode 4 freshState 2 menuEmulator 0 10).2 (by decide)⟩

theorem selectLoop_exits {E : Type} (host : Emulator E) (cond : Nat → Nat → Bool) (emu : E)
    (d : Nat) :
    ∀ (j fuel : Nat) (calls : List EmuCall), d ≤ fuel →
      (∀ k, j ≤ k → k < j + d →
        cond (pairAfter host emu k).1 (pairAfter host emu k).2 = true) →
      cond (pairAfter host emu (j + d)).1 (pairAfter host emu (j + d)).2 = false →
      selectLoop host cond fuel
          { emu := afterPresses host emu j, calls := calls,
            mode := (pairAfter host emu j).1, var := (pairAfter host emu j).2,
            exited := false }
        = { emu := afterPresses host emu (j + d),
            calls := calls ++ List.replicate d (EmuCall.pressSelect 10),
            mode := (pairAfter host emu (j + d)).1, var := (pairAfter host emu (j + d)).2,
            exited := true } := by
  induction d with
  | zero =>
    intro j fuel calls _ _ hstop
    simp only [Nat.add_zero] at hstop
    cases fuel with
    | zero => simp [selectLoop, hstop]
    | succ f => simp [selectLoop, hstop]
  | succ d ih =>
    intro j fuel calls hfuel hgo hstop
    obtain ⟨f, rfl⟩ : ∃ f, fuel = f + 1 := ⟨fuel - 1, by omega⟩
    have hj : cond (pairAfter host emu j).1 (pairAfter host emu j).2 = true :=
      hgo j (Nat.le_refl j) (by omega)
    have hidx : j + 1 + d = j + (d + 1) := by omega
    have hnext := ih (j + 1) f (calls ++ [EmuCall.pressSelect 10]) (by omega)
      (fun k hk1 hk2 => hgo k (by omega) (by omega)) (by rw [hidx]; exact hstop)
    rw [hidx] at hnext
    simp only [selectLoop, hj, if_true]
    have hcalls : calls ++ [EmuCall.pressSelect 10] ++ List.replicate d (EmuCall.pressSelect 10)
        = calls ++ List.replicate (d + 1) (EmuCall.pressSelect 10) := by
      simp [List.replicate_succ]
    rw [← hcalls]
    exact hnext

theorem cond_standard_iff (a b : Nat) :
    (a != 1 || b != 1) = false ↔ (a, b) = targetPair 0 := by
  simp [targetPair]

theorem cond_numbered_iff (m : Nat) (hm : m ≠ 0) (a b : Nat) :
    (a != m || b != 0) = false ↔ (a, b) = targetPair m := by
  simp [targetPair, hm]

/-- Claim C13: for a valid mode `m < N`, if the pair `(mem[0x99], mem[0xA1])`
read after `k` presses of select equals the target pair for the first time at
`k = n`, then `setMode` returns (given at least `n` loop iterations) having
issued exactly `n` calls `pressSelect(10)` followed by exactly one `softReset`,
its last action; the last pair read is the target pair, and the emulator is in
the state reached by `n` presses and the soft reset. -/
theorem setMode_presses_until_match {E : Type} (N : Nat) (s : MsPacmanSettings) (m : Nat)
    (host : Emulator E) (emu : E) (n fuel : Nat)
    (hm : m < N)
    (hmatch : pairAfter host emu n = targetPair m)
    (hfirst : ∀ k, k < n → pairAfter host emu k ≠ targetPair m)
    (hfuel : n ≤ fuel) :
    (setMode N s m host emu fuel).outcome = Outcome.returned ∧
    (setMode N s m host emu fuel).calls
      = List.replicate n (EmuCall.pressSelect 10) ++ [EmuCall.softReset] ∧
    (setMode N s m host emu fuel).lastRead = some (targetPair m) ∧
    (setMode N s m host emu fuel).emu = host.softReset (afterPresses host emu n) ∧
    (setMode N s m host emu fuel).self = s := by
  by_cases hm0 : m = 0
  · subst hm0
    have hloop := selectLoop_exits host (fun mode var => mode != 1 || var != 1) emu n 0 fuel []
      (by omega)
      (fun k _ hk => by
        have hne := hfirst k (by omega)
        rw [← Bool.not_eq_false]
        intro hc
        exact hne ((cond_standard_iff _ _).mp hc))
      (by
        rw [Nat.zero_add]
        exact (cond_standard_iff _ _).mpr hmatch)
    simp only [Nat.zero_add, List.nil_append] at hloop
    have hinit : afterPresses host emu 0 = emu := rfl
    rw [hinit] at hloop
    simp only [setMode, hm, if_true, pairAfter, hinit] at hloop ⊢
    rw [hloop]
    refine ⟨rfl, rfl, ?_, rfl, rfl⟩
    simp only [if_true]
    rw [← hmatch]
    rfl
  · have hloop := selectLoop_exits host (fun mode var => mode != m || var != 0) emu n 0 fuel []
      (by omega)
      (fun k _ hk => by
        have hne := hfirst k (by omega)
        rw [← Bool.not_eq_false]
        intro hc
        exact hne ((cond_numbered_iff m hm0 _ _).mp hc))
      (by
        rw [Nat.zero_add]
        exact (cond_numbered_iff m hm0 _ _).mpr hmatch)
    simp only [Nat.zero_add, List.nil_append] at hloop
    have hinit : afterPresses host emu 0 = emu := rfl
    rw [hinit] at hloop
    simp only [setMode, hm, hm0, if_true, if_false, pairAfter, hinit] at hloop ⊢
    rw [hloop]
    refine ⟨rfl, rfl, ?_, rfl, rfl⟩
    simp only [if_true]
    rw [← hmatch]
    rfl

/-- Witness for C13: on the sample menu, started at position 0, mode 0 (target
pair `(1, 1)`) is first shown after five presses and mode 2 is shown after two;
a menu already at position 2 needs no press for mode 2. -/
theorem setMode_presses_until_match_witness :
    pairAfter menuEmulator 0 5 = targetPair 0 ∧
    (∀ k, k < 5 → pairAfter menuEmulator 0 k ≠ targetPair 0) ∧
    ((setMode 4 freshState 0 menuEmulator 0 5).outcome = Outcome.returned ∧
      (setMode 4 freshState 0 menuEmulator 0 5).calls
        = List.replicate 5 (EmuCall.pressSelect 10) ++ [EmuCall.softReset] ∧
      (setMode 4 freshState 0 menuEmulator 0 5).lastRead = some (targetPair 0) ∧
      (setMode 4 freshState 0 menuEmulator 0 5).emu
        = menuEmulator.softReset (afterPresses menuEmulator 0 5) ∧
      (setMode 4 freshState 0 menuEmulator 0 5).self = freshState) ∧
    (setMode 4 freshState 2 menuEmulator 2 0).calls = [EmuCall.softReset] :=
  ⟨by decide, by decide,
    setMode_presses_until_match 4 freshState 0 menuEmulator 0 5 5 (by decide) (by decide)
      (by decide) (Nat.le_refl 5),
    (setMode_presses_until_match 4 freshState 2 menuEmulator 2 0 0 (by decide) (by decide)
      (by decide) (Nat.le_refl 0)).2.1⟩

/-- Claim C14: `getAvailableModes` returns the sequence of length
`N = getNumModes()` whose `i`-th element is `i`, strictly increasing and without
duplicates, and `setMode` accepts a mode (does not throw the invalid-mode
error) exactly when the mode occurs in that sequence. -/
theorem getAvailableModes_spec {E : Type} (N : Nat) (s : MsPacmanSettings) (m i : Nat)
    (host : Emulator E) (emu : E) (fuel : Nat) :
    getAvailableModes N s = List.range N ∧
    (getAvailableModes N s).length = N ∧
    (getAvailableModes N s).get? i = (if i < N then some i else none) ∧
    (getAvailableModes N s).Pairwise (fun a b => a < b) ∧
    (getAvailableModes N s).Nodup ∧
    ((¬ ∃ what, (setMode N s m host emu fuel).outcome = Outcome.threw what)
      ↔ m ∈ getAvailableModes N s) := by
  rw [getAvailableModes_eq_range]
  refine ⟨rfl, List.length_range N, ?_, List.pairwise_lt_range N, List.nodup_range N, ?_⟩
  · by_cases hi : i < N
    · simp [hi, List.getElem?_range]
    · simp only [hi, if_false, List.get?_eq_getElem?]
      exact List.getElem?_eq_none (by rw [List.length_range]; omega)
  · rw [setMode_threw_iff, List.mem_range]
    omega

/-! ## The step: history, closed form and reachable states -/

theorem stepAll_append (G : Int) (s : MsPacmanSettings) (mems : List System)
    (system : System) :
    stepAll G s (mems ++ [system]) = step G (stepAll G s mems) system := by
  simp [stepAll, List.foldl_append]

theorem stepAll_score (G : Int) (mems : List System) :
    ∀ s : MsPacmanSettings, (stepAll G s mems).m_score = s.m_score := by
  induction mems with
  | nil => intro s; rfl
  | cons system rest ih =>
    intro s
    have hcons : stepAll G s (system :: rest) = stepAll G (step G s system) rest := rfl
    rw [hcons, ih, step_eq]

theorem decodedLives_of_terminal (system : System) (h : memTerminal system = true) :
    decodedLives system = 1 := by
  have h0 := ((memTerminal_iff system).mp h).1
  unfold decodedLives
  rw [h0]
  rfl

/-- Claim C15: the reward of `step` is computed against the values
`m_prev_lives` and `m_prevPelletsCleared` held before the step, and after the
step `m_prev_lives` is the newly decoded lives and `m_prevPelletsCleared` is the
number of zero bytes among the 1024 addresses `0x4000..0x43FF`, a number in
`[0, 1024]`. -/
theorem step_updates_history (G : Int) (s : MsPacmanSettings) (system : System) :
    (step G s system).getReward
      = (if decodedLives system < s.m_prev_lives then -10
         else if zeroCount system > s.m_prevPelletsCleared then
           zeroCount system - s.m_prevPelletsCleared
         else 0)
        + 5 * eatenGhosts G system + (if s.m_terminal then 0 else 1) ∧
    (step G s system).m_prev_lives = decodedLives system ∧
    (step G s system).m_prev_lives = (step G s system).m_lives ∧
    (step G s system).m_prevPelletsCleared = zeroCount system ∧
    0 ≤ (step G s system).m_prevPelletsCleared ∧
    (step G s system).m_prevPelletsCleared ≤ 1024 := by
  rw [step_eq]
  exact ⟨rfl, rfl, rfl, rfl, zeroCount_nonneg system, zeroCount_le system⟩

/-- Claim C16: the reward is recomputed and the score never populated.  Two
states that agree on `m_prev_lives`, `m_prevPelletsCleared` and `m_terminal`
get the same reward, terminal flag, lives, previous lives and previous pellets
cleared from `step`, whatever their reward, score and lives; `step` leaves the
score unchanged, so the score is 0 in every state reached from `reset` by
steps. -/
theorem step_recomputes_reward (G : Int) (s1 s2 : MsPacmanSettings) (system : System)
    (hlives : s1.m_prev_lives = s2.m_prev_lives)
    (hpellets : s1.m_prevPelletsCleared = s2.m_prevPelletsCleared)
    (hterm : s1.m_terminal = s2.m_terminal) :
    ((step G s1 system).m_reward = (step G s2 system).m_reward ∧
      (step G s1 system).m_terminal = (step G s2 system).m_terminal ∧
      (step G s1 system).m_lives = (step G s2 system).m_lives ∧
      (step G s1 system).m_prev_lives = (step G s2 system).m_prev_lives ∧
      (step G s1 system).m_prevPelletsCleared = (step G s2 system).m_prevPelletsCleared) ∧
    (step G s1 system).m_score = s1.m_score ∧
    (∀ (s0 : MsPacmanSettings) (mems : List System),
      (stepAll G (reset s0) mems).m_score = 0) := by
  have hlop : lifeOrPelletTerm s1 system = lifeOrPelletTerm s2 system := by
    simp only [lifeOrPelletTerm, hlives, hpellets]
  refine ⟨?_, ?_, ?_⟩
  · rw [step_eq, step_eq]
    simp only [hlop, hterm]
    exact ⟨trivial, trivial, trivial, trivial, trivial⟩
  · rw [step_eq]
  · intro s0 mems
    rw [stepAll_score]
    rfl

/-- Witness for C16: the fresh state and a state with reward 7, score 9 and
lives 1 but the same history get the same results from one step. -/
theorem step_recomputes_reward_witness :
    ((step 7 freshState (sampleSnapshot 2 40 1)).m_reward
        = (step 7 { freshState with m_reward := 7, m_score := 9, m_lives := 1 }
            (sampleSnapshot 2 40 1)).m_reward ∧
      (step 7 freshState (sampleSnapshot 2 40 1)).m_terminal
        = (step 7 { freshState with m_reward := 7, m_score := 9, m_lives := 1 }
            (sampleSnapshot 2 40 1)).m_terminal ∧
      (step 7 freshState (sampleSnapshot 2 40 1)).m_lives
        = (step 7 { freshState with m_reward := 7, m_score := 9, m_lives := 1 }
            (sampleSnapshot 2 40 1)).m_lives ∧
      (step 7 freshState (sampleSnapshot 2 40 1)).m_prev_lives
        = (step 7 { freshState with m_reward := 7, m_score := 9, m_lives := 1 }
            (sampleSnapshot 2 40 1)).m_prev_lives ∧
      (step 7 freshState (sampleSnapshot 2 40 1)).m_prevPelletsCleared
        = (step 7 { freshState with m_reward := 7, m_score := 9, m_lives := 1 }
            (sampleSnapshot 2 40 1)).m_prevPelletsCleared) ∧
    (step 7 freshState (sampleSnapshot 2 40 1)).m_score = freshState.m_score ∧
    (∀ (s0 : MsPacmanSettings) (mems : List System),
      (stepAll 7 (reset s0) mems).m_score = 0) :=
  step_recomputes_reward 7 freshState { freshState with m_reward := 7, m_score := 9, m_lives := 1 }
    (sampleSnapshot 2 40 1) rfl rfl rfl

/-- Claim C17: closed form of the reward of `step` as coded.  With `L` the
decoded lives, `p` the zero-byte count of `0x4000..0x43FF` and `k` the number
of ghost bytes equal to `GHOST_EATEN_STATE`, the reward is
`(if L < m_prev_lives then -10 else if p > m_prevPelletsCleared then
p - m_prevPelletsCleared else 0) + 5 * k + (if m_terminal then 0 else 1)`, with
`m_terminal` the flag held before the step; a second step on the same snapshot
gives the reward `5 * k + (if the snapshot is terminal then 0 else 1)`. -/
theorem step_reward_closed_form (G : Int) (s : MsPacmanSettings) (system : System) :
    (step G s system).getReward
      = (if decodedLives system < s.m_prev_lives then -10
         else if zeroCount system > s.m_prevPelletsCleared then
           zeroCount system - s.m_prevPelletsCleared
         else 0)
        + 5 * eatenGhosts G system + (if s.m_terminal then 0 else 1) ∧
    (step G (step G s system) system).getReward
      = 5 * eatenGhosts G system
        + (if (readRam system 0xFB &&& 0xF = 0 ∧ readRam system 0xA7 = 0x53) then 0 else 1) := by
  constructor
  · rw [step_eq]
    rfl
  · rw [step_eq G (step G s system), step_eq G s system]
    simp only [getReward, lifeOrPelletTerm, lt_self_iff_false, gt_iff_lt, if_false, zero_add]
    by_cases ht : memTerminal system = true
    · have hc := (memTerminal_iff system).mp ht
      simp [ht, hc]
    · have hc : ¬ (readRam system 0xFB &&& 0xF = 0 ∧ readRam system 0xA7 = 0x53) :=
        fun h => ht ((memTerminal_iff system).mpr h)
      simp [ht, hc]

theorem step_lives_of_terminal (G : Int) (s : MsPacmanSettings) (system : System)
    (h : (step G s system).m_terminal = true) : (step G s system).m_lives = 1 := by
  rw [step_eq] at h ⊢
  exact decodedLives_of_terminal system h

theorem stepAll_invariant (G : Int) (s0 : MsPacmanSettings) (mems : List System) :
    (0 ≤ (stepAll G (reset s0) mems).m_prevPelletsCleared ∧
      (stepAll G (reset s0) mems).m_prevPelletsCleared ≤ 1024) ∧
    (stepAll G (reset s0) mems).m_lives = (stepAll G (reset s0) mems).m_prev_lives ∧
    (-10 ≤ (stepAll G (reset s0) mems).m_reward ∧
      (stepAll G (reset s0) mems).m_reward ≤ 1045) ∧
    ((stepAll G (reset s0) mems).m_terminal = true →
      (stepAll G (reset s0) mems).m_lives = 1) := by
  induction mems using List.reverseRecOn with
  | nil =>
    refine ⟨⟨?_, ?_⟩, rfl, ⟨?_, ?_⟩, ?_⟩
    · show (0 : Int) ≤ 0
      decide
    · show (0 : Int) ≤ 1024
      decide
    · show (-10 : Int) ≤ 0
      decide
    · show (0 : Int) ≤ 1045
      decide
    · intro h
      have hf : (stepAll G (reset s0) []).m_terminal = false := rfl
      rw [hf] at h
      exact absurd h (by decide)
  | append_singleton l system ih =>
    rw [stepAll_append]
    refine ⟨?_, ?_, step_reward_bounds G _ system ih.1.1, step_lives_of_terminal G _ system⟩
    · rw [step_eq]
      exact ⟨zeroCount_nonneg system, zeroCount_le system⟩
    · rw [step_eq]

/-- Claim C18: reachable-state invariant.  In every state reached from `reset`
by a finite sequence of `step` calls on arbitrary snapshots,
`m_prevPelletsCleared` is in `[0, 1024]`, `m_lives` equals `m_prev_lives`, and
the reward is in `[-10, 1045]`; and whenever the terminal flag is true after a
step, the stored lives value is 1. -/
theorem reachable_state_invariant (G : Int) (s0 s : MsPacmanSettings) (mems : List System)
    (system : System) :
    (0 ≤ (stepAll G (reset s0) mems).m_prevPelletsCleared ∧
      (stepAll G (reset s0) mems).m_prevPelletsCleared ≤ 1024) ∧
    (stepAll G (reset s0) mems).m_lives = (stepAll G (reset s0) mems).m_prev_lives ∧
    (-10 ≤ (stepAll G (reset s0) mems).getReward ∧
      (stepAll G (reset s0) mems).getReward ≤ 1045) ∧
    ((stepAll G (reset s0) mems).isTerminal = true →
      (stepAll G (reset s0) mems).m_lives = 1) ∧
    ((step G s system).isTerminal = true → (step G s system).m_lives = 1) :=
  ⟨(stepAll_invariant G s0 mems).1, (stepAll_invariant G s0 mems).2.1,
    (stepAll_invariant G s0 mems).2.2.1, (stepAll_invariant G s0 mems).2.2.2,
    step_lives_of_terminal G s system⟩

set_option maxRecDepth 100000 in
/-- Witness for C18: after a non-terminal step and then a step on a terminal
snapshot, the terminal flag is true and the stored lives value is 1. -/
theorem reachable_state_invariant_witness :
    (stepAll 7 (reset freshState) [sampleSnapshot 2 40 1, terminalSnapshot]).isTerminal = true ∧
    (stepAll 7 (reset freshState) [sampleSnapshot 2 40 1, terminalSnapshot]).m_lives = 1 ∧
    (step 7 freshState terminalSnapshot).m_lives = 1 :=
  ⟨by decide,
    (reachable_state_invariant 7 freshState freshState
      [sampleSnapshot 2 40 1, terminalSnapshot] terminalSnapshot).2.2.2.1 (by decide),
    (reachable_state_invariant 7 freshState freshState
      [sampleSnapshot 2 40 1, terminalSnapshot] terminalSnapshot).2.2.2.2 (by decide)⟩

/-! ## Checkpoints and the pellet history -/

theorem loadState_saveState_nil (s t : MsPacmanSettings) :
    loadState t (saveState s []).2 =
      some ({ m_reward := s.m_reward, m_score := s.m_score, m_terminal := s.m_terminal,
              m_lives := s.m_lives, m_prev_lives := s.m_prev_lives,
              m_prevPelletsCleared := t.m_prevPelletsCleared }, []) := by
  rw [saveState_eq]
  exact loadState_five t s.m_reward s.m_score s.m_lives s.m_prev_lives s.m_terminal []

set_option maxRecDepth 100000 in
theorem zeroCount_samples :
    zeroCount (sampleSnapshot 2 40 1) = 40 ∧ zeroCount (sampleSnapshot 2 41 1) = 41 ∧
    decodedLives (sampleSnapshot 2 40 1) = 3 ∧ decodedLives (sampleSnapshot 2 41 1) = 3 := by
  refine ⟨by decide, by decide, by decide, by decide⟩

/-- Claim C19: checkpoint replay depends on the pellet history.  There are a
state reached from `reset` by steps and a snapshot for which restoring the
saved state into a freshly reset adapter and stepping gives a reward different
from stepping the original state, because `loadState` does not restore
`m_prevPelletsCleared`; when the target of the load already holds the same
`m_prevPelletsCleared`, the load succeeds and the two steps give identical
states. -/
theorem checkpoint_replay_pellet_history (G : Int) (s0 : MsPacmanSettings) :
    (∃ (mems : List System) (system : System) (t : MsPacmanSettings) (rest : Deserializer),
      loadState (reset s0) (saveState (stepAll G (reset s0) mems) []).2 = some (t, rest) ∧
      (step G t system).getReward ≠ (step G (stepAll G (reset s0) mems) system).getReward) ∧
    (∀ (s t0 : MsPacmanSettings) (system : System),
      t0.m_prevPelletsCleared = s.m_prevPelletsCleared →
      ∃ (t : MsPacmanSettings) (rest : Deserializer),
        loadState t0 (saveState s []).2 = some (t, rest) ∧
        step G t system = step G s system) := by
  constructor
  · refine ⟨[sampleSnapshot 2 40 1], sampleSnapshot 2 41 1, _, [],
      loadState_saveState_nil _ (reset s0), ?_⟩
    obtain ⟨h40, h41, hl40, hl41⟩ := zeroCount_samples
    have hone : stepAll G (reset s0) [sampleSnapshot 2 40 1]
        = step G (reset s0) (sampleSnapshot 2 40 1) := rfl
    rw [hone, step_eq G _ (sampleSnapshot 2 41 1), step_eq G _ (sampleSnapshot 2 41 1),
      step_eq G (reset s0)]
    have hpp : (reset s0).m_prevPelletsCleared = 0 := rfl
    simp only [getReward, lifeOrPelletTerm, h40, h41, hl40, hl41, hpp]
    intro h
    simp at h
  · intro s t0 system hpp
    refine ⟨_, [], loadState_saveState_nil s t0, ?_⟩
    rw [hpp]

set_option maxRecDepth 100000 in
/-- Witness for C19: the state after one step with 40 cleared cells, restored
into a target that already holds the previous pellet count 40, steps exactly as
the original. -/
theorem checkpoint_replay_pellet_history_witness :
    (stepAll 7 (reset freshState) [sampleSnapshot 2 40 1]).m_prevPelletsCleared = 40 ∧
    ∃ (t : MsPacmanSettings) (rest : Deserializer),
      loadState { freshState with m_prevPelletsCleared := 40 }
          (saveState (stepAll 7 (reset freshState) [sampleSnapshot 2 40 1]) []).2
        = some (t, rest) ∧
      step 7 t (sampleSnapshot 2 41 1)
        = step 7 (stepAll 7 (reset freshState) [sampleSnapshot 2 40 1]) (sampleSnapshot 2 41 1) :=
  ⟨by decide,
    (checkpoint_replay_pellet_history 7 freshState).2
      (stepAll 7 (reset freshState) [sampleSnapshot 2 40 1])
      { freshState with m_prevPelletsCleared := 40 } (sampleSnapshot 2 41 1) (by decide)⟩

end ale
